import Mathlib

/-!
Verification of the orchestration engine of the math_recursion repository:
the leaf scheduler (src/main.py, get_leaves), the driver loops
(parallel_updates / sequential_updates), the Elo round-robin winner
selection (src/bots/L1_bot.py, src/bots/L3_bot.py), the L4 review
completion logic (src/bots/L4_bot.py), the L3 restart logic
(src/bots/L3_bot.py) and the unique label allocator (src/latex_labels.py).
All definitions are shallow embeddings of the Python source.
-/

namespace MathRecursion

/-! Configuration constants from src/config.py. -/
namespace Config

def L1_REASONING_STEPS : Nat := 5

def L2_REASONING_STEPS : Nat := 2

def L3_REASONING_STEPS : Nat := 2

def L4_REASONING_STEPS : Nat := 2

def NUM_L2_BOTS : Nat := 1

def NUM_L3_BOTS : Nat := 1

def NUM_L4_BOTS : Nat := 3

def NUM_REVIEWERS : Nat := 3

def NUM_LABEL_CHAR : Nat := 4

end Config

/-! ## Unique label allocator (src/latex_labels.py)

`LabelManager` holds a set `existing_labels` of already-issued labels and an
asyncio lock.  `get_label` repeatedly draws a random candidate string and,
under the lock, checks membership; the first absent candidate is inserted
and returned.  `check_label` is a membership test under the lock.  The lock
serializes every check-and-insert, so concurrent callers are equivalent to
some sequential interleaving; we model the candidate draws of one call as a
list of strings (the successive outputs of random.choices) and thread the
registry state through the calls. -/

namespace LabelManager

/-- One call to get_label: scan the random draws for the first candidate not
in the registry, insert it and return it.  Returns none when the supplied
draw list is exhausted (the source loops forever, drawing more candidates;
a successful call corresponds to a draw list containing a fresh candidate). -/
def get_label (draws : List String) (reg : Finset String) :
    Option (String × Finset String) :=
  match draws with
  | [] => none
  | d :: rest => if d ∈ reg then get_label rest reg else some (d, insert d reg)

/-- check_label: membership test on the registry. -/
def check_label (reg : Finset String) (l : String) : Bool := l ∈ reg

/-- A sequence of get_label calls (the serialized view of N concurrent
callers), threading the registry from call to call. -/
def get_labels (drawss : List (List String)) (reg : Finset String) :
    Option (List String × Finset String) :=
  match drawss with
  | [] => some ([], reg)
  | ds :: rest =>
    match get_label ds reg with
    | none => none
    | some (l, reg1) =>
      match get_labels rest reg1 with
      | none => none
      | some (ls, reg2) => some (l :: ls, reg2)

end LabelManager

/-! ## The bot tree and the leaf scheduler (src/main.py, get_leaves)

A bot node carries a done flag, an iteration counter, optional
L2_instruction / L3_instruction / L4_instruction attributes (get_leaves
reads them with getattr(child, ..., None): bot classes that do not define
an attribute contribute None, modeled by Option String), and a children
list.  The textual fields of the various bot classes do not influence the
scheduler and are omitted here. -/

structure BotAttrs where
  done : Bool
  L2_instruction : Option String
  L3_instruction : Option String
  L4_instruction : Option String
  iterations : Nat
deriving Repr, DecidableEq

/-- A tree of bots: L1 at the root, with L2/L3/L4/review bots below. -/
inductive BotTree where
  | node : BotAttrs → List BotTree → BotTree
deriving Repr

def BotTree.attrs : BotTree → BotAttrs
  | .node a _ => a

def BotTree.children : BotTree → List BotTree
  | .node _ cs => cs

def BotTree.done (t : BotTree) : Bool := t.attrs.done

def BotTree.iterations (t : BotTree) : Nat := t.attrs.iterations

/-- The grouping key of get_leaves: the triple
(getattr(child, 'L2_instruction', None), getattr(child, 'L3_instruction',
None), getattr(child, 'L4_instruction', None)). -/
def BotTree.intentKey (t : BotTree) :
    Option String × Option String × Option String :=
  (t.attrs.L2_instruction, t.attrs.L3_instruction, t.attrs.L4_instruction)

/-- In-place mutation child.done = True of the source, as a functional
update. -/
def BotTree.setDone : BotTree → BotTree
  | .node a cs => .node { a with done := true } cs

/-- Whether get_leaves forces this child done: its sibling group (all
children with the same instruction-triple key) has size > 1 and contains a
done member.  The source builds a dict keyed by the triple and marks each
group with len > 1 and any done member; a child is marked exactly when this
predicate holds for it, since the groups partition the children. -/
def forcedDone (c : BotTree) (siblings : List BotTree) : Bool :=
  decide (1 < (siblings.filter fun d => decide (d.intentKey = c.intentKey)).length)
    && (siblings.filter fun d => decide (d.intentKey = c.intentKey)).any (·.done)

mutual

/-- get_leaves from src/main.py.  Returns the tree after the in-place
group marking together with the list of returned leaves, identified by
their paths (lists of child indices) into the returned tree.  The source
first marks whole sibling groups done, then either returns the node itself
(no children, or all children done — Python's all([]) is True, so one
List.all check covers not children or all(...)) or recurses into every
(marked) child.  The recursion below walks the original children and
applies the marking inline: a child the marking forced done is exactly a
child whose recursive get_leaves call returns it unchanged with no
leaves. -/
def get_leaves : BotTree → BotTree × List (List Nat)
  | .node a cs =>
    if a.done then (.node a cs, [])
    else
      let cs' := cs.map fun c => if forcedDone c cs then c.setDone else c
      if cs'.all (·.done) then (.node a cs', [[]])
      else
        let r := get_leaves_children 0 cs cs
        (.node a r.1, r.2)

/-- The recursive walk of get_leaves over the children list: i is the index
of the first child of cs in the full original list orig. -/
def get_leaves_children (i : Nat) : List BotTree → List BotTree →
    List BotTree × List (List Nat)
  | [], _ => ([], [])
  | c :: rest, orig =>
    let rc := if forcedDone c orig then (c.setDone, ([] : List (List Nat)))
      else get_leaves c
    let rr := get_leaves_children (i + 1) rest orig
    (rc.1 :: rr.1, rc.2.map (fun p => i :: p) ++ rr.2)

end

/-- Look up the subtree at a path of child indices. -/
def subtreeAt : BotTree → List Nat → Option BotTree
  | t, [] => some t
  | t, i :: p =>
    match t.children.get? i with
    | some c => subtreeAt c p
    | none => none

/-- Path q lies strictly below path p in the tree (p is a proper ancestor
position of q). -/
def strictUnder (p q : List Nat) : Prop := ∃ r, r ≠ [] ∧ q = p ++ r

/-- The path addresses a node of the tree whose done flag is false. -/
def leafOk (t : BotTree) (p : List Nat) : Prop :=
  ∃ u, subtreeAt t p = some u ∧ u.done = false

/-- The scheduler postcondition of claim C4: no returned leaf is an
ancestor of another, and no returned leaf is done. -/
def leavesGood (t : BotTree) (ps : List (List Nat)) : Prop :=
  (∀ p ∈ ps, ∀ q ∈ ps, ¬ strictUnder p q) ∧ ∀ p ∈ ps, leafOk t p

/-! ## Driver loops (src/main.py, parallel_updates and sequential_updates)

Both loops run `while L1.iterations < Config.L1_REASONING_STEPS`.  One
round of parallel_updates computes get_leaves(L1) and awaits step() on
every returned leaf; one round of sequential_updates computes the leaves
and awaits step() on the first one, or sleeps when there is none.  The
effect of awaiting bot.step() depends on the external generation service,
so it is kept abstract: stepFn takes the current tree and the path of the
stepped leaf and yields the mutated tree.  The visualizer is a read-only
collaborator and is omitted. -/

/-- One round of the parallel_updates loop body.  When get_leaves returns
no leaves, no task is created and the tree is left as get_leaves left it. -/
def parallelRound (stepFn : BotTree → List Nat → BotTree) (t : BotTree) :
    BotTree :=
  (get_leaves t).2.foldl (fun u p => stepFn u p) (get_leaves t).1

/-- One round of the sequential_updates loop body: step the first leaf in
depth-first order, or (after a sleep) leave the tree unchanged. -/
def sequentialRound (stepFn : BotTree → List Nat → BotTree) (t : BotTree) :
    BotTree :=
  match (get_leaves t).2 with
  | [] => (get_leaves t).1
  | p :: _ => stepFn (get_leaves t).1 p

/-- The tree after n rounds of the parallel_updates while-loop body. -/
def parallelState (stepFn : BotTree → List Nat → BotTree) (t : BotTree) :
    Nat → BotTree
  | 0 => t
  | n + 1 => parallelRound stepFn (parallelState stepFn t n)

/-- The tree after n rounds of the sequential_updates while-loop body. -/
def sequentialState (stepFn : BotTree → List Nat → BotTree) (t : BotTree) :
    Nat → BotTree
  | 0 => t
  | n + 1 => sequentialRound stepFn (sequentialState stepFn t n)

/-- The parallel_updates loop exits iff its guard
L1.iterations < Config.L1_REASONING_STEPS eventually fails: some number of
rounds drives the root's iteration count to the cap. -/
def parallelTerminates (stepFn : BotTree → List Nat → BotTree)
    (t : BotTree) : Prop :=
  ∃ n, Config.L1_REASONING_STEPS ≤ (parallelState stepFn t n).iterations

/-- Likewise for sequential_updates, whose guard is identical. -/
def sequentialTerminates (stepFn : BotTree → List Nat → BotTree)
    (t : BotTree) : Prop :=
  ∃ n, Config.L1_REASONING_STEPS ≤ (sequentialState stepFn t n).iterations

/-- A root whose _final_decision found COMPLETE on its first iteration:
that phase increments iterations to 1 and sets done := true with
1 < Config.L1_REASONING_STEPS = 5. -/
def doneEarlyRoot : BotTree :=
  .node { done := true, L2_instruction := none, L3_instruction := none,
          L4_instruction := none, iterations := 1 } []

/-! ## ReviewBot (src/bots/review_bot.py) -/

/-- The state stored by ReviewBot.__init__.  It defines no
L2_instruction, L3_instruction or L4_instruction attribute, so get_leaves
reads None for all three via getattr; it also defines no children
attribute.  The Optional[str] analysis fields are initialized to None and
play no role in the claims, so only summary and the control fields are
kept alongside the constructor arguments. -/
structure ReviewBotState where
  document : String
  sectionText : String
  subsection : String
  instruction : String
  environment_block : String
  summary : String
  done : Bool
  accepted : Bool
  iterations : Nat
  current_llm_call_index : Nat
deriving Repr, DecidableEq

/-- A ReviewBot as a node of the scheduler tree: all three instruction
attributes read as None (the class defines none of them) and
getattr(bot, 'children', []) defaults to the empty list. -/
def reviewNode (r : ReviewBotState) : BotTree :=
  .node { done := r.done, L2_instruction := none, L3_instruction := none,
          L4_instruction := none, iterations := r.iterations } []

/-- A concrete reviewer state, for instantiating theorems. -/
def mkReviewer (done accepted : Bool) : ReviewBotState :=
  { document := "", sectionText := "", subsection := "", instruction := "",
    environment_block := "", summary := "N/A", done := done,
    accepted := accepted, iterations := 0, current_llm_call_index := 0 }

/-! ## L4 review evaluation (src/bots/L4_bot.py, _review_evaluation) -/

/-- The control flags of an L4Bot that _review_evaluation touches. -/
structure L4Flags where
  iterations : Nat
  done : Bool
  incomplete : Bool
deriving Repr, DecidableEq

/-- The flag effect of L4Bot._review_evaluation, after the LLM call that
produces review_summary (which touches no flag): iterations is
incremented; if every reviewer child's accepted attribute is true the node
is marked done and complete; then — a second independent if, not an elif —
if the incremented iteration count has reached Config.L4_REASONING_STEPS
the node is marked done and incomplete. -/
def L4Bot.review_evaluation (f : L4Flags) (reviewers : List ReviewBotState) :
    L4Flags :=
  let f1 : L4Flags := { f with iterations := f.iterations + 1 }
  let f2 : L4Flags :=
    if reviewers.all (·.accepted) then { f1 with done := true, incomplete := false }
    else f1
  if ¬ f2.iterations < Config.L4_REASONING_STEPS then
    { f2 with done := true, incomplete := true }
  else f2

/-! ## L3 drafting phase (src/bots/L3_bot.py, _draft_subsection_code, step) -/

/-- What _draft_subsection_code reads from each L4 child after the
tournament pruning (the pruning keeps one candidate per instruction and
preserves the incomplete flags, so an all-incomplete candidate set prunes
to an all-incomplete children list). -/
structure L4ChildView where
  L4_instruction : String
  incomplete : Bool
  math_draft : String
deriving Repr, DecidableEq

/-- Python dict assignment d[k] = v on the insertion-ordered math_drafts
dict: overwrite in place when the key exists, else append. -/
def dictSet (d : List (String × Option String)) (k : String)
    (v : Option String) : List (String × Option String) :=
  if d.any fun kv => decide (kv.1 = k) then
    d.map fun kv => if kv.1 = k then (k, v) else kv
  else d ++ [(k, v)]

/-- The fields of an L3Bot that its drafting phase and step touch. -/
structure L3DraftState where
  math_drafts : List (String × Option String)
  subsection_draft : String
  restart : Bool
  done : Bool
  iterations : Nat
  current_llm_call_index : Nat
deriving Repr, DecidableEq

/-- The length of L3Bot.step's llm_call_sequence: three reasoning steps,
_generate_math_list, _format_instructions_for_L4_bots, _create_round_robin
(present because Config.NUM_L4_BOTS = 3 > 1), _draft_subsection_code and
_final_decision_for_subsection. -/
def L3_sequence_length : Nat := 8

/-- The position of _draft_subsection_code in that sequence. -/
def L3_draft_call_index : Nat := 6

/-- L3Bot._draft_subsection_code: record each child's draft into the
accumulated math_drafts dict (None for an incomplete child); if every
value of the dict is None, set restart and return without drafting;
otherwise produce the new subsection draft.  gen stands for the drafted
text after the label rewriting — external generation plus markup handling,
which touch neither the control flags nor the dict. -/
def L3Bot.draft_subsection_code (st : L3DraftState)
    (children : List L4ChildView) (gen : String) : L3DraftState :=
  let drafts := children.foldl
    (fun d c => dictSet d c.L4_instruction
      (if c.incomplete then none else some c.math_draft))
    st.math_drafts
  if drafts.all fun kv => decide (kv.2 = none) then
    { st with math_drafts := drafts, restart := true }
  else
    { st with math_drafts := drafts, subsection_draft := gen }

/-- L3Bot.step when the cursor points at _draft_subsection_code: run the
phase, then reset the cursor and clear restart when the phase requested a
restart, else advance the cursor modulo the sequence length. -/
def L3Bot.step_draft (st : L3DraftState) (children : List L4ChildView)
    (gen : String) : L3DraftState :=
  let st1 := L3Bot.draft_subsection_code st children gen
  if st1.restart then { st1 with current_llm_call_index := 0, restart := false }
  else { st1 with current_llm_call_index :=
    (st1.current_llm_call_index + 1) % L3_sequence_length }

/-- The concrete L3 state of the C9 counterexample: a second-iteration
node whose first drafting pass recorded one accepted draft. -/
def staleDraftState : L3DraftState :=
  { math_drafts := [("k", some "old accepted draft")], subsection_draft := "",
    restart := false, done := false, iterations := 1,
    current_llm_call_index := L3_draft_call_index }

/-- The children of the C9 counterexample: a single candidate, incomplete. -/
def staleDraftChildren : List L4ChildView :=
  [{ L4_instruction := "j", incomplete := true, math_draft := "N/A" }]

/-- A first-pass L3 state: empty math_drafts dict, cursor at the drafting
phase. -/
def freshDraftState : L3DraftState :=
  { math_drafts := [], subsection_draft := "", restart := false,
    done := false, iterations := 0,
    current_llm_call_index := L3_draft_call_index }

/-! ## Root construction (src/main.py lines 133-147, L1Bot.__init__)

src/main.py builds the root with
L1Bot(original_document, doc_instruction, lbl_mgr) — three positional
arguments — while L1Bot.__init__ declares (self, document_draft, lbl_mgr):
exactly two positional parameters besides self, with no defaults and no
*args.  Python binds positional arguments by position and raises TypeError
when the counts differ. -/

/-- A positional argument at the construction site. -/
inductive PyArg where
  | strArg (s : String)
  | mgrArg (m : Finset String)

/-- The parameters of L1Bot.__init__ besides self
(src/bots/L1_bot.py lines 16-20). -/
def L1BotInitParams : List String := ["document_draft", "lbl_mgr"]

/-- Python's positional binding for a function with the given parameter
names, no defaults and no *args: it succeeds exactly when the argument
count matches the parameter count. -/
def bindPositional (params : List String) (args : List PyArg) :
    Except String (List (String × PyArg)) :=
  if args.length = params.length then .ok (params.zip args)
  else .error "TypeError"

/-- The construction call of the __main__ block:
L1Bot(original_document, doc_instruction, lbl_mgr). -/
def mainL1Call (original_document doc_instruction : String)
    (lbl_mgr : Finset String) : Except String (List (String × PyArg)) :=
  bindPositional L1BotInitParams
    [.strArg original_document, .strArg doc_instruction, .mgrArg lbl_mgr]

/-- The state L1Bot.__init__ stores when called with its two declared
arguments.  There is no field for an instruction: __init__ stores none.
The prompt text and the regex-derived section_blocks (markup parsing, a
collaborator outside the modeled core) are omitted. -/
structure L1State where
  document_draft : String
  lbl_mgr : Finset String
  prelim_reasoning_response : String
  reasoning_response : String
  formatted_instructions_response : String
  L2_instructions : List String
  children : List BotTree
  draft_document_code : String
  final_decision_response : String
  iterations : Nat
  done : Bool
  current_llm_call_index : Nat

/-- The field initialization of L1Bot.__init__. -/
def L1Bot.init (document_draft : String) (lbl_mgr : Finset String) :
    L1State :=
  { document_draft := document_draft, lbl_mgr := lbl_mgr,
    prelim_reasoning_response := "", reasoning_response := "",
    formatted_instructions_response := "", L2_instructions := [],
    children := [], draft_document_code := "",
    final_decision_response := "N/A", iterations := 0, done := false,
    current_llm_call_index := 0 }

/-! ## Round-robin Elo winner computation
(src/bots/L1_bot.py and src/bots/L3_bot.py, _compute_round_robin_winners)

Ratings live in the reals: claims C7 and C8 are about exact arithmetic.
A match record carries the ids of its two bots and a result code (1 first
wins, 2 second wins, anything else a tie).  Modelled from the spec: the
round_robin module holding the L2RoundRobin / L4RoundRobin match classes
is referenced by the source but absent from src/; its bot1, bot2 and
result fields are exactly the ones _compute_round_robin_winners reads and
the spec's Match record describes. -/

namespace RoundRobin

/-- The Elo update factor K = 32. -/
noncomputable def K : ℝ := 32

/-- A round-robin match result between two bots, by id. -/
structure MatchRec where
  bot1 : Nat
  bot2 : Nat
  result : Nat
deriving Repr, DecidableEq

/-- The expected score of the first bot:
e1 = 1 / (1 + 10 ** ((r2 - r1) / 400)). -/
noncomputable def expectedScore (r1 r2 : ℝ) : ℝ :=
  1 / (1 + (10 : ℝ) ^ ((r2 - r1) / 400))

/-- The observed scores (s1, s2): 1/0 on result 1, 0/1 on result 2,
0.5/0.5 otherwise. -/
noncomputable def scores (result : Nat) : ℝ × ℝ :=
  if result = 1 then (1, 0) else if result = 2 then (0, 1) else (1/2, 1/2)

/-- One iteration of the match loop: a match whose bots are not both in
the ratings dict is skipped; otherwise both entries are reassigned from
the pair of ratings read before either assignment. -/
noncomputable def eloStep (rated : List Nat) (ratings : Nat → ℝ)
    (m : MatchRec) : Nat → ℝ :=
  if m.bot1 ∈ rated ∧ m.bot2 ∈ rated then
    let r1 := ratings m.bot1
    let r2 := ratings m.bot2
    let s := scores m.result
    let ratings1 : Nat → ℝ := fun b =>
      if b = m.bot1 then r1 + K * (s.1 - expectedScore r1 r2) else ratings b
    fun b => if b = m.bot2 then r2 + K * (s.2 - expectedScore r2 r1)
      else ratings1 b
  else ratings

/-- The ratings after processing the accumulated match list in creation
order, starting from the 1500 baseline held by every grouped bot. -/
noncomputable def finalRatings (rated : List Nat) (ms : List MatchRec) :
    Nat → ℝ :=
  ms.foldl (eloStep rated) fun _ => 1500

/-- Python's max(bots, key=...): the first element attaining the maximal
rating — a later element replaces the current best only when strictly
greater. -/
noncomputable def maxByRating (ratings : Nat → ℝ) : List Nat → Option Nat
  | [] => none
  | b :: rest =>
    some (rest.foldl (fun best x => if ratings best < ratings x then x else best) b)

/-- A bot of the candidate list, with its id and its instruction (the
grouping key of _compute_round_robin_winners; the L1 variant groups by
L2_instruction, the L3 variant by L4_instruction). -/
structure BotRef where
  id : Nat
  instruction : String
deriving Repr, DecidableEq

/-- The distinct instructions in first-occurrence order: Python dicts
iterate in key-insertion order. -/
def groupKeys (bots : List BotRef) : List String :=
  bots.foldl (fun ks b => if b.instruction ∈ ks then ks else ks ++ [b.instruction]) []

/-- L1Bot._compute_round_robin_winners: group the children by instruction,
rate every child from the full match list (every grouped bot is in the
ratings dict, so ratings.get(b, 1500) is the computed rating), and keep
the max-rated bot of each group, in group order. -/
noncomputable def compute_round_robin_winners (bots : List BotRef)
    (ms : List MatchRec) : List Nat :=
  let rated := bots.map (·.id)
  let ratings := finalRatings rated ms
  (groupKeys bots).filterMap fun instr =>
    maxByRating ratings
      ((bots.filter fun b => decide (b.instruction = instr)).map (·.id))

/-- The three candidates of the C8 scenario, sharing one instruction, in
creation order. -/
def botsABC : List BotRef := [⟨0, "I"⟩, ⟨1, "I"⟩, ⟨2, "I"⟩]

/-- The C8 match results in creation order ((A,B), (A,C), (B,C)):
A beats B, A beats C, B beats C. -/
def matchesABC : List MatchRec := [⟨0, 1, 1⟩, ⟨0, 2, 1⟩, ⟨1, 2, 1⟩]

/-- The two candidates of the second C8 scenario, sharing one instruction,
with no matches between them. -/
def botsDE : List BotRef := [⟨0, "J"⟩, ⟨1, "J"⟩]

end RoundRobin

/-- A childless tree node with the given done flag and L2_instruction. -/
def leafN (d : Bool) (k : Option String) : BotTree :=
  .node { done := d, L2_instruction := k, L3_instruction := none,
          L4_instruction := none, iterations := 0 } []

/-- The tree of the C5 counterexample: a live root whose first child A
(key "a") is done and owns a size-2 sibling group sharing key "k" with one
done member; the second root child B (key "b") keeps the root from being a
leaf, so the pass does recurse below the root. -/
def C5tree : BotTree :=
  .node { done := false, L2_instruction := none, L3_instruction := none,
          L4_instruction := none, iterations := 0 }
    [.node { done := true, L2_instruction := some "a", L3_instruction := none,
             L4_instruction := none, iterations := 0 }
       [leafN true (some "k"), leafN false (some "k")],
     leafN false (some "b")]

/-! ## Theorems -/

namespace LabelManager

theorem get_label_spec (draws : List String) (reg : Finset String)
    (l : String) (reg' : Finset String)
    (h : get_label draws reg = some (l, reg')) :
    l ∉ reg ∧ reg' = insert l reg := by
  induction draws with
  | nil => simp [get_label] at h
  | cons d rest ih =>
    by_cases hd : d ∈ reg
    · simp [get_label, hd] at h
      exact ih h
    · simp [get_label, hd] at h
      obtain ⟨h1, h2⟩ := h
      subst h1; subst h2
      exact ⟨hd, rfl⟩

theorem get_labels_spec (drawss : List (List String)) (reg : Finset String)
    (ls : List String) (reg' : Finset String)
    (h : get_labels drawss reg = some (ls, reg')) :
    ls.Nodup ∧ (∀ l ∈ ls, l ∉ reg ∧ check_label reg' l = true) ∧ reg ⊆ reg' := by
  induction drawss generalizing reg ls with
  | nil =>
    simp [get_labels] at h
    obtain ⟨h1, h2⟩ := h
    subst h1; subst h2
    simp [check_label]
  | cons ds rest ih =>
    cases hg : get_label ds reg with
    | none => simp [get_labels, hg] at h
    | some p =>
      obtain ⟨l, reg1⟩ := p
      cases hr : get_labels rest reg1 with
      | none => simp [get_labels, hg, hr] at h
      | some q =>
        obtain ⟨ls1, reg2⟩ := q
        simp only [get_labels, hg, hr] at h
        simp at h
        obtain ⟨h1, h2⟩ := h
        subst h1; subst h2
        obtain ⟨hfresh, hins⟩ := get_label_spec ds reg l reg1 hg
        obtain ⟨hnd, hmem, hsub⟩ := ih reg1 ls1 hr
        subst hins
        refine ⟨?_, ?_, ?_⟩
        · refine List.nodup_cons.mpr ⟨?_, hnd⟩
          intro hl
          exact ((hmem l hl).1 (Finset.mem_insert_self l reg)).elim
        · intro x hx
          rcases List.mem_cons.mp hx with hx | hx
          · subst hx
            refine ⟨hfresh, ?_⟩
            simp only [check_label, decide_eq_true_eq]
            exact hsub (Finset.mem_insert_self x reg)
          · obtain ⟨hx1, hx2⟩ := hmem x hx
            exact ⟨fun hc => hx1 (Finset.mem_insert_of_mem hc), hx2⟩
        · exact fun x hx => hsub (Finset.mem_insert_of_mem hx)

end LabelManager

theorem strictUnder_nil_nil : ¬ strictUnder [] ([] : List Nat) := by
  rintro ⟨r, hr, h⟩
  simp at h
  exact hr h

theorem strictUnder_cons_iff (x y : Nat) (p q : List Nat) :
    strictUnder (x :: p) (y :: q) ↔ x = y ∧ strictUnder p q := by
  constructor
  · rintro ⟨r, hr, h⟩
    simp only [List.cons_append, List.cons.injEq] at h
    exact ⟨h.1.symm, r, hr, h.2⟩
  · rintro ⟨hxy, r, hr, h⟩
    exact ⟨r, hr, by simp [List.cons_append, hxy, h]⟩

theorem get_leaves_children_spec (cs : List BotTree) (orig : List BotTree)
    (IH : ∀ c ∈ cs, leavesGood (get_leaves c).1 (get_leaves c).2) (i : Nat) :
    (∀ q ∈ (get_leaves_children i cs orig).2,
       ∃ j p, q = j :: p ∧ i ≤ j ∧
         ∃ c', ((get_leaves_children i cs orig).1).get? (j - i) = some c' ∧
           leafOk c' p) ∧
    (∀ q1 ∈ (get_leaves_children i cs orig).2,
       ∀ q2 ∈ (get_leaves_children i cs orig).2, ¬ strictUnder q1 q2) := by
  induction cs generalizing i with
  | nil => simp [get_leaves_children]
  | cons c rest ih =>
    have IHc := IH c (List.mem_cons_self c rest)
    have IHrest : ∀ d ∈ rest, leavesGood (get_leaves d).1 (get_leaves d).2 :=
      fun d hd => IH d (List.mem_cons_of_mem c hd)
    obtain ⟨ihmem, ihpair⟩ := ih IHrest (i + 1)
    -- the head entry of the walk
    set rc := if forcedDone c orig then (c.setDone, ([] : List (List Nat)))
      else get_leaves c with hrc
    have hrcgood : ∀ p ∈ rc.2, leafOk rc.1 p := by
      by_cases hf : forcedDone c orig
      · simp [hrc, hf]
      · simp only [hrc, hf, if_neg, Bool.false_eq_true, ite_false]
        exact IHc.2
    have hrcpair : ∀ p1 ∈ rc.2, ∀ p2 ∈ rc.2, ¬ strictUnder p1 p2 := by
      by_cases hf : forcedDone c orig
      · simp [hrc, hf]
      · simp only [hrc, hf, Bool.false_eq_true, ite_false]
        exact IHc.1
    have hunfold : get_leaves_children i (c :: rest) orig =
        (rc.1 :: (get_leaves_children (i + 1) rest orig).1,
         rc.2.map (fun p => i :: p) ++ (get_leaves_children (i + 1) rest orig).2) := by
      simp [get_leaves_children, hrc]
    rw [hunfold]
    constructor
    · intro q hq
      rcases List.mem_append.mp hq with hq | hq
      · obtain ⟨p, hp, hpq⟩ := List.mem_map.mp hq
        refine ⟨i, p, hpq.symm, le_refl i, rc.1, ?_, hrcgood p hp⟩
        simp
      · obtain ⟨j, p, hjp, hij, c', hc', hok⟩ := ihmem q hq
        refine ⟨j, p, hjp, le_trans (Nat.le_succ i) hij, c', ?_, hok⟩
        have hdiff : j - i = (j - (i + 1)) + 1 := by omega
        rw [hdiff]
        simpa using hc'
    · intro q1 hq1 q2 hq2
      rcases List.mem_append.mp hq1 with hq1 | hq1 <;>
        rcases List.mem_append.mp hq2 with hq2 | hq2
      · obtain ⟨p1, hp1, he1⟩ := List.mem_map.mp hq1
        obtain ⟨p2, hp2, he2⟩ := List.mem_map.mp hq2
        rw [← he1, ← he2, strictUnder_cons_iff]
        rintro ⟨-, hu⟩
        exact hrcpair p1 hp1 p2 hp2 hu
      · obtain ⟨p1, hp1, he1⟩ := List.mem_map.mp hq1
        obtain ⟨j, p, hjp, hij, -⟩ := ihmem q2 hq2
        rw [← he1, hjp, strictUnder_cons_iff]
        rintro ⟨hji, -⟩
        omega
      · obtain ⟨j, p, hjp, hij, -⟩ := ihmem q1 hq1
        obtain ⟨p2, hp2, he2⟩ := List.mem_map.mp hq2
        rw [hjp, ← he2, strictUnder_cons_iff]
        rintro ⟨hji, -⟩
        omega
      · exact ihpair q1 hq1 q2 hq2

theorem get_leaves_good (t : BotTree) :
    leavesGood (get_leaves t).1 (get_leaves t).2 := by
  suffices h : ∀ n, ∀ t : BotTree, sizeOf t ≤ n →
      leavesGood (get_leaves t).1 (get_leaves t).2 by
    exact h (sizeOf t) t (le_refl _)
  intro n
  induction n with
  | zero =>
    intro t ht
    obtain ⟨a, cs⟩ := t
    simp at ht
  | succ n ih =>
    rintro ⟨a, cs⟩ ht
    have hcs : ∀ c ∈ cs, leavesGood (get_leaves c).1 (get_leaves c).2 := by
      intro c hc
      refine ih c ?_
      have h1 : sizeOf c < sizeOf cs := List.sizeOf_lt_of_mem hc
      have h2 : sizeOf (BotTree.node a cs) = 1 + sizeOf a + sizeOf cs := by
        simp
      omega
    by_cases hdone : a.done
    · simp [get_leaves, hdone, leavesGood]
    · by_cases hall :
        (cs.map fun c => if forcedDone c cs then c.setDone else c).all (·.done)
      · have hgl : get_leaves (BotTree.node a cs) =
            (BotTree.node a (cs.map fun c =>
              if forcedDone c cs then c.setDone else c), [[]]) := by
          simp [get_leaves, hdone, hall]
        rw [hgl]
        constructor
        · intro p hp q hq
          simp at hp hq
          subst hp; subst hq
          exact strictUnder_nil_nil
        · intro p hp
          simp at hp
          subst hp
          exact ⟨_, rfl, by simp [BotTree.done, BotTree.attrs, hdone]⟩
      · have hgl : get_leaves (BotTree.node a cs) =
            (BotTree.node a (get_leaves_children 0 cs cs).1,
             (get_leaves_children 0 cs cs).2) := by
          simp [get_leaves, hdone, hall]
        rw [hgl]
        obtain ⟨hmem, hpair⟩ := get_leaves_children_spec cs cs hcs 0
        constructor
        · exact hpair
        · intro p hp
          obtain ⟨j, p0, hjp, -, c', hc', u, hu, hud⟩ := hmem p hp
          refine ⟨u, ?_, hud⟩
          rw [hjp]
          simp only [subtreeAt, BotTree.children]
          rw [Nat.sub_zero] at hc'
          rw [hc']
          exact hu

theorem BotTree.setDone_done (c : BotTree) : c.setDone.done = true := by
  obtain ⟨a, cs⟩ := c
  simp [BotTree.setDone, BotTree.done, BotTree.attrs]

theorem BotTree.setDone_intentKey (c : BotTree) :
    c.setDone.intentKey = c.intentKey := by
  obtain ⟨a, cs⟩ := c
  simp [BotTree.setDone, BotTree.intentKey, BotTree.attrs]

/-- get_leaves only mutates the done flags of children of visited nodes;
the attributes of the node it is called on are unchanged. -/
theorem get_leaves_attrs (t : BotTree) : ((get_leaves t).1).attrs = t.attrs := by
  obtain ⟨a, cs⟩ := t
  by_cases hdone : a.done
  · simp [get_leaves, hdone, BotTree.attrs]
  · by_cases hall :
      (cs.map fun c => if forcedDone c cs then c.setDone else c).all (·.done)
    · simp [get_leaves, hdone, hall, BotTree.attrs]
    · simp [get_leaves, hdone, hall, BotTree.attrs]

theorem get_leaves_children_fst (cs orig : List BotTree) (i : Nat) :
    (get_leaves_children i cs orig).1 =
      cs.map fun c => if forcedDone c orig then c.setDone else (get_leaves c).1 := by
  induction cs generalizing i with
  | nil => simp [get_leaves_children]
  | cons c rest ih =>
    simp only [get_leaves_children, List.map_cons]
    by_cases hf : forcedDone c orig <;> simp [hf, ih]

/-- After one pass over a non-done node, every child of the returned node
is the original child with its done flag or-ed with the group marking, and
with its intent key unchanged. -/
theorem get_leaves_node_children (a : BotAttrs) (cs : List BotTree)
    (ha : a.done = false) :
    ∃ f : BotTree → BotTree,
      (get_leaves (.node a cs)).1 = .node a (cs.map f) ∧
      ∀ c, (f c).done = (c.done || forcedDone c cs) ∧
        (f c).intentKey = c.intentKey := by
  by_cases hall :
    (cs.map fun c => if forcedDone c cs then c.setDone else c).all (·.done)
  · refine ⟨fun c => if forcedDone c cs then c.setDone else c, ?_, ?_⟩
    · simp [get_leaves, ha, hall]
    · intro c
      by_cases hf : forcedDone c cs <;>
        simp [hf, BotTree.setDone_done, BotTree.setDone_intentKey]
  · refine ⟨fun c => if forcedDone c cs then c.setDone else (get_leaves c).1,
      ?_, ?_⟩
    · simp [get_leaves, ha, hall, get_leaves_children_fst]
    · intro c
      by_cases hf : forcedDone c cs
      · simp [hf, BotTree.setDone_done, BotTree.setDone_intentKey]
      · have hattrs := get_leaves_attrs c
        simp [hf, BotTree.done, BotTree.intentKey, hattrs]

/-- Every surviving child of a visited non-done node whose intent key
matches a sibling group of size > 1 containing a done member comes out of
the pass marked done. -/
theorem forced_group_done (a : BotAttrs) (cs : List BotTree)
    (k : Option String × Option String × Option String)
    (ha : a.done = false)
    (hlen : 1 < (cs.filter fun d => decide (d.intentKey = k)).length)
    (hany : (cs.filter fun d => decide (d.intentKey = k)).any (·.done) = true) :
    ∀ c' ∈ ((get_leaves (.node a cs)).1).children,
      c'.intentKey = k → c'.done = true := by
  obtain ⟨f, hf1, hf2⟩ := get_leaves_node_children a cs ha
  rw [hf1]
  intro c' hc' hk
  simp only [BotTree.children] at hc'
  obtain ⟨c, hc, rfl⟩ := List.mem_map.mp hc'
  obtain ⟨hdone, hkey⟩ := hf2 c
  have hck : c.intentKey = k := by rw [← hkey]; exact hk
  have hfilter : (cs.filter fun d => decide (d.intentKey = c.intentKey)) =
      (cs.filter fun d => decide (d.intentKey = k)) := by
    simp only [hck]
  have hforced : forcedDone c cs = true := by
    unfold forcedDone
    rw [hfilter]
    simp [hlen, hany]
  rw [hdone, hforced, Bool.or_true]

/-- C4: for every bot tree, the list returned by get_leaves(root) contains
no two elements where one is an ancestor (transitive parent via children)
of the other, and contains no element whose done flag is true. -/
theorem C4_ready_leaves_disjoint_and_live (t : BotTree) :
    (∀ p ∈ (get_leaves t).2, ∀ q ∈ (get_leaves t).2, ¬ strictUnder p q) ∧
    (∀ p ∈ (get_leaves t).2,
      ∃ u, subtreeAt (get_leaves t).1 p = some u ∧ u.done = false) :=
  get_leaves_good t

/-- C5 counterexample: in C5tree the children of the done node at path [0]
form a sibling group of size 2 sharing one intent key and containing a
done member, yet after one call of get_leaves on the root the group member
at path [0, 1] still has done = false: the pass never visits the children
of a done node, so the claimed propagation does not happen there. -/
theorem C5_counterexample_group_under_done_node_not_marked :
    ((C5tree.children.get? 0).map fun A =>
        (((A.children.filter fun d =>
             decide (d.intentKey = (some "k", none, none))).length),
         ((A.children.filter fun d =>
             decide (d.intentKey = (some "k", none, none))).any (·.done))))
      = some (2, true) ∧
    (subtreeAt (get_leaves C5tree).1 [0, 1]).map (·.done) = some false := by
  constructor
  · rfl
  · rfl

/-- C5 (amended): the propagation holds for every sibling group whose
parent the pass visits while not done — stated here for the children of
the node get_leaves is called on: if its children contain a group of
size > 1 sharing an intent key with a done member, then after the call
every child carrying that key is done. -/
theorem C5_sibling_group_done_propagates (a : BotAttrs) (cs : List BotTree)
    (k : Option String × Option String × Option String)
    (ha : a.done = false)
    (hlen : 1 < (cs.filter fun d => decide (d.intentKey = k)).length)
    (hany : (cs.filter fun d => decide (d.intentKey = k)).any (·.done) = true) :
    ∀ c' ∈ ((get_leaves (.node a cs)).1).children,
      c'.intentKey = k → c'.done = true :=
  forced_group_done a cs k ha hlen hany

theorem C5_sibling_group_done_propagates_witness :
    ((⟨false, none, none, none, 0⟩ : BotAttrs).done = false) ∧
    (1 < (([leafN true (some "k"), leafN false (some "k")].filter fun d =>
        decide (d.intentKey = (some "k", none, none))).length)) ∧
    ((([leafN true (some "k"), leafN false (some "k")].filter fun d =>
        decide (d.intentKey = (some "k", none, none))).any (·.done)) = true) ∧
    (∀ c' ∈ ((get_leaves (.node ⟨false, none, none, none, 0⟩
        [leafN true (some "k"), leafN false (some "k")])).1).children,
      c'.intentKey = (some "k", none, none) → c'.done = true) :=
  ⟨by decide, by decide, by decide,
    C5_sibling_group_done_propagates ⟨false, none, none, none, 0⟩
      [leafN true (some "k"), leafN false (some "k")]
      (some "k", none, none) (by decide) (by decide) (by decide)⟩

/-- C6: every ReviewBot node carries the intent key (None, None, None)
because the class defines none of the three instruction attributes, so all
reviewer children of an L4 node fall into one sibling group; hence when at
least two reviewers exist and one is done, one get_leaves pass over the
(not-done) L4 node forces every reviewer done. -/
theorem C6_reviewers_share_default_key_and_collapse (a : BotAttrs)
    (rs : List ReviewBotState) (ha : a.done = false)
    (hlen : 2 ≤ rs.length) (hdone : ∃ r ∈ rs, r.done = true) :
    (∀ r : ReviewBotState, (reviewNode r).intentKey = (none, none, none)) ∧
    ∀ c' ∈ ((get_leaves (.node a (rs.map reviewNode))).1).children,
      c'.done = true := by
  have hkeynode : ∀ r : ReviewBotState,
      (reviewNode r).intentKey = (none, none, none) := by
    intro r
    simp [reviewNode, BotTree.intentKey, BotTree.attrs]
  refine ⟨hkeynode, ?_⟩
  obtain ⟨r0, hr0, hr0d⟩ := hdone
  have hkeys : ∀ d ∈ rs.map reviewNode,
      d.intentKey = ((none : Option String), (none : Option String),
        (none : Option String)) := by
    intro d hd
    obtain ⟨r, hr, rfl⟩ := List.mem_map.mp hd
    exact hkeynode r
  have hfilter : ((rs.map reviewNode).filter fun d =>
      decide (d.intentKey = ((none : Option String), (none : Option String),
        (none : Option String)))) = rs.map reviewNode :=
    List.filter_eq_self.mpr fun d hd => by simp [hkeys d hd]
  have hlen1 : 1 < ((rs.map reviewNode).filter fun d =>
      decide (d.intentKey = ((none : Option String), (none : Option String),
        (none : Option String)))).length := by
    rw [hfilter, List.length_map]
    omega
  have hany1 : (((rs.map reviewNode).filter fun d =>
      decide (d.intentKey = ((none : Option String), (none : Option String),
        (none : Option String)))).any (·.done)) = true := by
    rw [hfilter]
    refine List.any_eq_true.mpr ⟨reviewNode r0, List.mem_map_of_mem _ hr0, ?_⟩
    simp [reviewNode, BotTree.done, BotTree.attrs, hr0d]
  intro c' hc'
  refine forced_group_done a (rs.map reviewNode) (none, none, none) ha hlen1
    hany1 c' hc' ?_
  obtain ⟨f, hf1, hf2⟩ := get_leaves_node_children a (rs.map reviewNode) ha
  rw [hf1] at hc'
  simp only [BotTree.children] at hc'
  obtain ⟨c, hc, rfl⟩ := List.mem_map.mp hc'
  rw [(hf2 c).2]
  exact hkeys c hc

theorem C6_reviewers_share_default_key_and_collapse_witness :
    ((⟨false, none, none, none, 0⟩ : BotAttrs).done = false) ∧
    (2 ≤ [mkReviewer true false, mkReviewer false false].length) ∧
    (∃ r ∈ [mkReviewer true false, mkReviewer false false], r.done = true) ∧
    ((∀ r : ReviewBotState, (reviewNode r).intentKey = (none, none, none)) ∧
      ∀ c' ∈ ((get_leaves (.node ⟨false, none, none, none, 0⟩
          ([mkReviewer true false, mkReviewer false false].map reviewNode))).1).children,
        c'.done = true) :=
  ⟨by decide, by decide, by decide,
    C6_reviewers_share_default_key_and_collapse ⟨false, none, none, none, 0⟩
      [mkReviewer true false, mkReviewer false false]
      (by decide) (by decide) (by decide)⟩

/-- C1: evidence for the divergence between src/main.py's driver loops and
the claim.  Both loops run while L1.iterations < Config.L1_REASONING_STEPS
and never consult the root's done flag.  For a root that signalled
completion with iterations still below the cap, get_leaves returns no
leaves, so a round of either loop leaves the tree unchanged for every
possible step effect; the guard therefore never fails and neither loop
terminates, contradicting the claim that the loop terminates and hands off
the artifact once the root's done flag becomes true. -/
theorem C1_driver_spins_forever_on_early_done_root :
    doneEarlyRoot.done = true ∧
    doneEarlyRoot.iterations < Config.L1_REASONING_STEPS ∧
    (∀ stepFn : BotTree → List Nat → BotTree, ∀ n,
      parallelState stepFn doneEarlyRoot n = doneEarlyRoot ∧
      sequentialState stepFn doneEarlyRoot n = doneEarlyRoot) ∧
    (∀ stepFn : BotTree → List Nat → BotTree,
      ¬ parallelTerminates stepFn doneEarlyRoot ∧
      ¬ sequentialTerminates stepFn doneEarlyRoot) := by
  have hfix : ∀ stepFn : BotTree → List Nat → BotTree, ∀ n,
      parallelState stepFn doneEarlyRoot n = doneEarlyRoot ∧
      sequentialState stepFn doneEarlyRoot n = doneEarlyRoot := by
    intro stepFn n
    induction n with
    | zero => exact ⟨rfl, rfl⟩
    | succ n ih =>
      obtain ⟨hp, hs⟩ := ih
      constructor
      · show parallelRound stepFn (parallelState stepFn doneEarlyRoot n) = _
        rw [hp]
        rfl
      · show sequentialRound stepFn (sequentialState stepFn doneEarlyRoot n) = _
        rw [hs]
        rfl
  refine ⟨rfl, by decide, hfix, ?_⟩
  intro stepFn
  constructor
  · rintro ⟨n, hn⟩
    rw [(hfix stepFn n).1] at hn
    exact absurd hn (by decide)
  · rintro ⟨n, hn⟩
    rw [(hfix stepFn n).2] at hn
    exact absurd hn (by decide)

/-- C2: evidence for the divergence between the entry point and
L1Bot.__init__.  The __main__ block passes three positional arguments
(original_document, doc_instruction, lbl_mgr) to a constructor declaring
exactly two parameters besides self, so Python raises TypeError and the
construction never succeeds; moreover the 2-argument initializer stores
the document unchanged but has no instruction to retain. -/
theorem C2_root_construction_raises_type_error
    (original_document doc_instruction : String) (lbl_mgr : Finset String) :
    mainL1Call original_document doc_instruction lbl_mgr
      = Except.error "TypeError" ∧
    (∀ d m, (L1Bot.init d m).document_draft = d) :=
  ⟨rfl, fun _ _ => rfl⟩

/-- C3 counterexample: an L4 node on its final permitted iteration
(iterations = 1 entering the phase, Config.L4_REASONING_STEPS = 2) whose
reviewers all set accepted: _review_evaluation first marks it done and
complete, but the independent iteration-cap check that follows overwrites
incomplete to true — the claim says the acceptance condition fires first
and the outcome is incomplete = false. -/
theorem C3_counterexample_acceptance_at_cap_still_incomplete :
    ([mkReviewer true true, mkReviewer true true].all (·.accepted) = true) ∧
    (L4Bot.review_evaluation ⟨1, false, true⟩
      [mkReviewer true true, mkReviewer true true]).done = true ∧
    (L4Bot.review_evaluation ⟨1, false, true⟩
      [mkReviewer true true, mkReviewer true true]).incomplete = true := by
  decide

/-- C3 (amended): when every reviewer accepted, the node is marked done,
and incomplete is false exactly when the incremented iteration count is
still below the cap (acceptance on the final permitted iteration is
overwritten to incomplete by the cap check); when not every reviewer
accepted and the cap is reached, the node is done and incomplete. -/
theorem C3_review_acceptance_flags (f : L4Flags) (rs : List ReviewBotState) :
    (rs.all (·.accepted) = true →
      (L4Bot.review_evaluation f rs).done = true ∧
      (L4Bot.review_evaluation f rs).incomplete
        = decide (Config.L4_REASONING_STEPS ≤ f.iterations + 1)) ∧
    (rs.all (·.accepted) = false →
      Config.L4_REASONING_STEPS ≤ f.iterations + 1 →
      (L4Bot.review_evaluation f rs).done = true ∧
      (L4Bot.review_evaluation f rs).incomplete = true) := by
  constructor
  · intro hacc
    unfold L4Bot.review_evaluation
    by_cases hcap : Config.L4_REASONING_STEPS ≤ f.iterations + 1
    · have : ¬ f.iterations + 1 < Config.L4_REASONING_STEPS := by omega
      simp [hacc, this, hcap]
    · have : f.iterations + 1 < Config.L4_REASONING_STEPS := by omega
      simp [hacc, this, hcap]
  · intro hacc hcap
    unfold L4Bot.review_evaluation
    have : ¬ f.iterations + 1 < Config.L4_REASONING_STEPS := by omega
    simp [hacc, this]

theorem C3_review_acceptance_flags_witness :
    ([mkReviewer true true].all (·.accepted) = true) ∧
    (L4Bot.review_evaluation ⟨0, false, true⟩ [mkReviewer true true]).done
      = true ∧
    (L4Bot.review_evaluation ⟨0, false, true⟩ [mkReviewer true true]).incomplete
      = false := by
  refine ⟨by decide, ?_, ?_⟩
  · exact ((C3_review_acceptance_flags ⟨0, false, true⟩
      [mkReviewer true true]).1 (by decide)).1
  · have h := ((C3_review_acceptance_flags ⟨0, false, true⟩
      [mkReviewer true true]).1 (by decide)).2
    simpa using h

theorem dictSet_none_all_none (d : List (String × Option String)) (k : String)
    (hd : ∀ kv ∈ d, kv.2 = none) :
    ∀ kv ∈ dictSet d k none, kv.2 = none := by
  intro kv hkv
  unfold dictSet at hkv
  split at hkv
  · obtain ⟨kv0, hkv0, hkv0e⟩ := List.mem_map.mp hkv
    by_cases he : kv0.1 = k
    · rw [if_pos he] at hkv0e
      rw [← hkv0e]
    · rw [if_neg he] at hkv0e
      rw [← hkv0e]
      exact hd kv0 hkv0
  · rcases List.mem_append.mp hkv with h | h
    · exact hd kv h
    · simp at h
      rw [h]

theorem drafts_fold_all_none (children : List L4ChildView)
    (d : List (String × Option String)) (hd : ∀ kv ∈ d, kv.2 = none)
    (hch : ∀ c ∈ children, c.incomplete = true) :
    ∀ kv ∈ children.foldl
      (fun d c => dictSet d c.L4_instruction
        (if c.incomplete then none else some c.math_draft)) d,
      kv.2 = none := by
  induction children generalizing d with
  | nil => simpa using hd
  | cons c rest ih =>
    intro kv hkv
    simp only [List.foldl_cons] at hkv
    rw [hch c (List.mem_cons_self _ _)] at hkv
    simp only [if_pos] at hkv
    exact ih (dictSet d c.L4_instruction none)
      (dictSet_none_all_none d c.L4_instruction hd)
      (fun c' hc' => hch c' (List.mem_cons_of_mem _ hc')) kv hkv

/-- C9 counterexample: an L3 node on its second iteration, whose first
drafting pass recorded one accepted draft under key "k".  Its next
drafting phase sees every current child incomplete, yet the all-None check
ranges over the accumulated math_drafts dict, whose stale entry is not
None — so restart is not set and the same step advances the cursor to 7
instead of resetting it to 0. -/
theorem C9_counterexample_stale_draft_blocks_restart :
    (staleDraftChildren.all (·.incomplete) = true) ∧
    (L3Bot.draft_subsection_code staleDraftState staleDraftChildren "g").restart
      = false ∧
    (L3Bot.step_draft staleDraftState staleDraftChildren "g").current_llm_call_index
      = 7 := by
  decide

/-- C9 (amended): when the drafting phase finds every child incomplete and
the accumulated math_drafts map holds no non-None draft from earlier
iterations (in particular on the node's first drafting pass), the phase
sets restart, and that same step() call resets the phase cursor to 0,
clears restart, and leaves done = false. -/
theorem C9_all_candidates_incomplete_restarts (st : L3DraftState)
    (children : List L4ChildView) (gen : String)
    (hprior : ∀ kv ∈ st.math_drafts, kv.2 = none)
    (hch : ∀ c ∈ children, c.incomplete = true)
    (hdone : st.done = false) :
    (L3Bot.draft_subsection_code st children gen).restart = true ∧
    (L3Bot.step_draft st children gen).current_llm_call_index = 0 ∧
    (L3Bot.step_draft st children gen).restart = false ∧
    (L3Bot.step_draft st children gen).done = false := by
  have hall : (children.foldl
      (fun d c => dictSet d c.L4_instruction
        (if c.incomplete then none else some c.math_draft))
      st.math_drafts).all (fun kv => decide (kv.2 = none)) = true := by
    rw [List.all_eq_true]
    intro kv hkv
    simpa using drafts_fold_all_none children st.math_drafts hprior hch kv hkv
  have hphase : L3Bot.draft_subsection_code st children gen
      = { st with
            math_drafts := children.foldl
              (fun d c => dictSet d c.L4_instruction
                (if c.incomplete then none else some c.math_draft))
              st.math_drafts,
            restart := true } := by
    unfold L3Bot.draft_subsection_code
    rw [if_pos hall]
  unfold L3Bot.step_draft
  rw [hphase]
  simp [hdone]

theorem C9_all_candidates_incomplete_restarts_witness :
    (∀ kv ∈ freshDraftState.math_drafts, kv.2 = none) ∧
    (∀ c ∈ staleDraftChildren, c.incomplete = true) ∧
    (L3Bot.draft_subsection_code freshDraftState staleDraftChildren
      "g").restart = true ∧
    (L3Bot.step_draft freshDraftState staleDraftChildren
      "g").current_llm_call_index = 0 :=
  ⟨by decide, by decide,
    (C9_all_candidates_incomplete_restarts freshDraftState staleDraftChildren
      "g" (by decide) (by decide) (by decide)).1,
    (C9_all_candidates_incomplete_restarts freshDraftState staleDraftChildren
      "g" (by decide) (by decide) (by decide)).2.1⟩

/-- C10: over any serialized sequence of successful get_label calls (the
lock serializes every check-and-insert, so any N concurrent calls execute
as such a sequence), the returned tokens are pairwise distinct, each was
absent from the registry it was checked against and is present in the
final registry (check_label returns true for it), and the registry only
grows. -/
theorem C10_allocator_never_repeats (drawss : List (List String))
    (reg : Finset String) (ls : List String) (reg' : Finset String)
    (h : LabelManager.get_labels drawss reg = some (ls, reg')) :
    ls.Nodup ∧ (∀ l ∈ ls, l ∉ reg ∧ LabelManager.check_label reg' l = true) ∧
    reg ⊆ reg' :=
  LabelManager.get_labels_spec drawss reg ls reg' h

theorem C10_allocator_never_repeats_witness :
    (LabelManager.get_labels [["aaaa"], ["aaaa", "bbbb"]] ∅
      = some (["aaaa", "bbbb"], insert "bbbb" (insert "aaaa" ∅))) ∧
    (["aaaa", "bbbb"].Nodup ∧
      (∀ l ∈ ["aaaa", "bbbb"],
        l ∉ (∅ : Finset String) ∧
        LabelManager.check_label (insert "bbbb" (insert "aaaa" ∅)) l = true) ∧
      (∅ : Finset String) ⊆ insert "bbbb" (insert "aaaa" ∅)) :=
  ⟨by decide,
    C10_allocator_never_repeats [["aaaa"], ["aaaa", "bbbb"]] ∅
      ["aaaa", "bbbb"] (insert "bbbb" (insert "aaaa" ∅)) (by decide)⟩

namespace RoundRobin

theorem expectedScore_pos (r1 r2 : ℝ) : 0 < expectedScore r1 r2 := by
  unfold expectedScore
  positivity

theorem expectedScore_lt_one (r1 r2 : ℝ) : expectedScore r1 r2 < 1 := by
  unfold expectedScore
  rw [div_lt_one (by positivity)]
  have := Real.rpow_pos_of_pos (show (0:ℝ) < 10 by norm_num) ((r2 - r1) / 400)
  linarith

/-- The two expected scores of one match sum to exactly 1. -/
theorem expectedScore_add (r1 r2 : ℝ) :
    expectedScore r1 r2 + expectedScore r2 r1 = 1 := by
  unfold expectedScore
  have hneg : (r1 - r2) / 400 = -((r2 - r1) / 400) := by ring
  rw [hneg, Real.rpow_neg (by norm_num)]
  have hx : (0:ℝ) < (10:ℝ) ^ ((r2 - r1) / 400) :=
    Real.rpow_pos_of_pos (by norm_num) _
  have hx0 : (10:ℝ) ^ ((r2 - r1) / 400) ≠ 0 := ne_of_gt hx
  have h1 : (1:ℝ) + (10:ℝ) ^ ((r2 - r1) / 400) ≠ 0 := by positivity
  have h2 : (1:ℝ) + ((10:ℝ) ^ ((r2 - r1) / 400))⁻¹ ≠ 0 := by positivity
  field_simp
  ring

/-- An expected score is exactly one half iff the two ratings coincide. -/
theorem expectedScore_half_iff (r1 r2 : ℝ) :
    expectedScore r1 r2 = 1 / 2 ↔ r1 = r2 := by
  unfold expectedScore
  have hx : (0:ℝ) < (10:ℝ) ^ ((r2 - r1) / 400) :=
    Real.rpow_pos_of_pos (by norm_num) _
  constructor
  · intro h
    have h1 : (1:ℝ) + (10:ℝ) ^ ((r2 - r1) / 400) ≠ 0 := by positivity
    rw [div_eq_div_iff h1 (by norm_num)] at h
    have hx1 : (10:ℝ) ^ ((r2 - r1) / 400) = (10:ℝ) ^ (0:ℝ) := by
      rw [Real.rpow_zero]
      linarith
    have hle1 : (r2 - r1) / 400 ≤ 0 :=
      (Real.rpow_le_rpow_left_iff (by norm_num)).mp hx1.le
    have hle2 : (0:ℝ) ≤ (r2 - r1) / 400 :=
      (Real.rpow_le_rpow_left_iff (by norm_num)).mp hx1.ge
    have h3 : (r2 - r1) / 400 = 0 := le_antisymm hle1 hle2
    have h4 : r2 - r1 = 0 := by
      field_simp at h3
      linarith
    linarith
  · intro h
    rw [h]
    have h5 : (r2 - r2) / 400 = 0 := by ring
    rw [h5, Real.rpow_zero]
    norm_num

/-- Unfolding one Elo update for a match whose bots are both rated. -/
theorem eloStep_app (rated : List Nat) (f : Nat → ℝ) (m : MatchRec)
    (hm : m.bot1 ∈ rated ∧ m.bot2 ∈ rated) (b : Nat) :
    eloStep rated f m b =
      if b = m.bot2 then
        f m.bot2 + K * ((scores m.result).2 - expectedScore (f m.bot2) (f m.bot1))
      else if b = m.bot1 then
        f m.bot1 + K * ((scores m.result).1 - expectedScore (f m.bot1) (f m.bot2))
      else f b := by
  unfold eloStep
  rw [if_pos hm]

/-- C7: for each processed match, the Elo update is zero-sum over exact
arithmetic — the first bot's change K*(s1 - e1) is the negation of the
second bot's change K*(s2 - e2), because s1 + s2 = 1 and the two logistic
expected scores sum to 1; and a tie (result code 0) leaves both ratings
unchanged exactly when the two ratings start equal. -/
theorem C7_elo_zero_sum_and_tie_fixed (r1 r2 : ℝ) (result : Nat) :
    ((scores result).1 + (scores result).2 = 1) ∧
    (expectedScore r1 r2 + expectedScore r2 r1 = 1) ∧
    (K * ((scores result).1 - expectedScore r1 r2)
      = -(K * ((scores result).2 - expectedScore r2 r1))) ∧
    ((K * ((scores 0).1 - expectedScore r1 r2) = 0 ∧
      K * ((scores 0).2 - expectedScore r2 r1) = 0) ↔ r1 = r2) := by
  have hs : (scores result).1 + (scores result).2 = 1 := by
    unfold scores
    by_cases h1 : result = 1
    · simp [h1]
    · by_cases h2 : result = 2
      · simp [h1, h2]
      · simp only [h1, h2, if_false]
        norm_num
  have he := expectedScore_add r1 r2
  refine ⟨hs, he, by unfold K; linarith [hs, he], ?_⟩
  have hs0 : scores 0 = (1/2, 1/2) := by unfold scores; norm_num
  rw [hs0]
  constructor
  · rintro ⟨ha, hb⟩
    have hK : K ≠ 0 := by unfold K; norm_num
    have hhalf : expectedScore r1 r2 = 1/2 := by
      rcases mul_eq_zero.mp ha with h | h
      · exact absurd h hK
      · linarith
    exact (expectedScore_half_iff r1 r2).mp hhalf
  · intro h
    have h1 : expectedScore r1 r2 = 1/2 := (expectedScore_half_iff r1 r2).mpr h
    have h2 : expectedScore r2 r1 = 1/2 :=
      (expectedScore_half_iff r2 r1).mpr h.symm
    rw [h1, h2]
    norm_num

/-- C8: winner selection is deterministic for the fixed match-processing
order and fixed 1500 baselines.  For three candidates A, B, C sharing one
instruction, with the matches (A,B), (A,C), (B,C) in creation order all
won by the first bot listed (A beats B, A beats C, B beats C),
_compute_round_robin_winners selects A; and two candidates with no matches
between them both retain the 1500 baseline and the first in input order is
selected. -/
theorem C8_tournament_deterministic_winner :
    compute_round_robin_winners botsABC matchesABC = [0] ∧
    (finalRatings [0, 1] [] 0 = 1500 ∧ finalRatings [0, 1] [] 1 = 1500) ∧
    compute_round_robin_winners botsDE [] = [0] := by
  set base : Nat → ℝ := fun _ => 1500 with hbase
  have hrated : botsABC.map (·.id) = [0, 1, 2] := rfl
  set f1 := eloStep [0, 1, 2] base ⟨0, 1, 1⟩ with hf1
  set f2 := eloStep [0, 1, 2] f1 ⟨0, 2, 1⟩ with hf2
  set f3 := eloStep [0, 1, 2] f2 ⟨1, 2, 1⟩ with hf3
  have hR : finalRatings [0, 1, 2] matchesABC = f3 := rfl
  have e0 : expectedScore 1500 1500 = 1 / 2 := (expectedScore_half_iff _ _).mpr rfl
  have hm1 : (⟨0, 1, 1⟩ : MatchRec).bot1 ∈ [0, 1, 2] ∧
      (⟨0, 1, 1⟩ : MatchRec).bot2 ∈ [0, 1, 2] := by simp
  have hm2 : (⟨0, 2, 1⟩ : MatchRec).bot1 ∈ [0, 1, 2] ∧
      (⟨0, 2, 1⟩ : MatchRec).bot2 ∈ [0, 1, 2] := by simp
  have hm3 : (⟨1, 2, 1⟩ : MatchRec).bot1 ∈ [0, 1, 2] ∧
      (⟨1, 2, 1⟩ : MatchRec).bot2 ∈ [0, 1, 2] := by simp
  have hs1 : scores 1 = (1, 0) := by unfold scores; norm_num
  have hf1_0 : f1 0 = 1516 := by
    rw [hf1, eloStep_app _ _ _ hm1]
    simp [hbase, hs1, e0]
    unfold K
    norm_num
  have hf1_1 : f1 1 = 1484 := by
    rw [hf1, eloStep_app _ _ _ hm1]
    simp [hbase, hs1, e0]
    unfold K
    norm_num
  have hf1_2 : f1 2 = 1500 := by
    rw [hf1, eloStep_app _ _ _ hm1]
    simp [hbase]
  have hf2_0 : f2 0 = 1516 + K * (1 - expectedScore 1516 1500) := by
    rw [hf2, eloStep_app _ _ _ hm2]
    simp [hs1, hf1_0, hf1_2]
  have hf2_1 : f2 1 = 1484 := by
    rw [hf2, eloStep_app _ _ _ hm2]
    simp [hf1_1]
  have hf2_2 : f2 2 = 1500 + K * (0 - expectedScore 1500 1516) := by
    rw [hf2, eloStep_app _ _ _ hm2]
    simp [hs1, hf1_0, hf1_2]
  have hf3_0 : f3 0 = f2 0 := by
    rw [hf3, eloStep_app _ _ _ hm3]
    simp
  have hf3_1 : f3 1 = f2 1 + K * (1 - expectedScore (f2 1) (f2 2)) := by
    rw [hf3, eloStep_app _ _ _ hm3]
    simp [hs1]
  have hf3_2 : f3 2 = f2 2 + K * (0 - expectedScore (f2 2) (f2 1)) := by
    rw [hf3, eloStep_app _ _ _ hm3]
    simp [hs1]
  have hK : K = 32 := rfl
  have hA : 1516 < f3 0 := by
    rw [hf3_0, hf2_0, hK]
    have := expectedScore_lt_one (1516 : ℝ) 1500
    linarith
  have hB : f3 1 < 1516 := by
    rw [hf3_1, hf2_1, hK]
    have := expectedScore_pos (1484 : ℝ) (f2 2)
    linarith
  have hC2 : f2 2 < 1500 := by
    rw [hf2_2, hK]
    have := expectedScore_pos (1500 : ℝ) 1516
    linarith
  have hC : f3 2 < 1516 := by
    rw [hf3_2, hK]
    have h2 := expectedScore_pos (f2 2) (f2 1)
    linarith
  refine ⟨?_, ⟨rfl, rfl⟩, ?_⟩
  · show ((groupKeys botsABC).filterMap fun instr =>
      maxByRating (finalRatings (botsABC.map (·.id)) matchesABC)
        ((botsABC.filter fun b => decide (b.instruction = instr)).map (·.id)))
      = [0]
    rw [hrated, hR]
    have hkeys : groupKeys botsABC = ["I"] := rfl
    rw [hkeys]
    have hids : ((botsABC.filter fun b =>
        decide (b.instruction = "I")).map (·.id)) = [0, 1, 2] := rfl
    simp only [List.filterMap_cons, List.filterMap_nil, hids]
    have hmax : maxByRating f3 [0, 1, 2] = some 0 := by
      unfold maxByRating
      simp only [List.foldl_cons, List.foldl_nil]
      rw [if_neg (not_lt.mpr (le_of_lt (lt_trans hB hA)))]
      rw [if_neg (not_lt.mpr (le_of_lt (lt_trans hC hA)))]
    rw [hmax]
  · show ((groupKeys botsDE).filterMap fun instr =>
      maxByRating (finalRatings (botsDE.map (·.id)) [])
        ((botsDE.filter fun b => decide (b.instruction = instr)).map (·.id)))
      = [0]
    have hkeys : groupKeys botsDE = ["J"] := rfl
    rw [hkeys]
    have hids : ((botsDE.filter fun b =>
        decide (b.instruction = "J")).map (·.id)) = [0, 1] := rfl
    simp only [List.filterMap_cons, List.filterMap_nil, hids]
    have hmax : maxByRating (finalRatings (botsDE.map (·.id)) []) [0, 1]
        = some 0 := by
      unfold maxByRating
      simp only [List.foldl_cons, List.foldl_nil]
      have hbase2 : finalRatings (botsDE.map (·.id)) [] = fun _ => 1500 := rfl
      simp only [hbase2]
      rw [if_neg (lt_irrefl (1500 : ℝ))]
    rw [hmax]

end RoundRobin

end MathRecursion
